import Mathlib

/-!
Verification of the spacearth-dtn core against its specification.

The Rust sources are shallowly embedded: machine integers (`u8`, `u32`,
`u64`) become `Nat` with explicit `% 2 ^ 64` where overflow matters,
`HashSet`/`HashMap` become lists with decidable membership, file-system
state becomes an association list from file stem to file bytes, and
fallible operations return `Except`.  Every definition is translated from
the corresponding Rust item, named after it, and kept executable.
-/

namespace SpacearthDtn

/-- Word size of the Rust `u64` type. -/
def u64Size : Nat := 2 ^ 64

/-! ## Data model (src/bpv7/bundle.rs, src/bundle.rs, src/bpv7/endpoint.rs)

`src/bundle.rs` and `src/bpv7/bundle.rs` declare structurally identical
`PrimaryBlock`/`Bundle` types (the TCP server uses the former, the store
the latter); one Lean structure models both. -/

/-- `PrimaryBlock` from src/bpv7/bundle.rs (fields in Rust declaration
order). `version : u8`, `creation_timestamp`/`lifetime : u64` are
modelled as `Nat`. -/
structure PrimaryBlock where
  version : Nat
  destination : String
  source : String
  reportTo : String
  creationTimestamp : Nat
  lifetime : Nat
deriving DecidableEq

/-- `Bundle` from src/bpv7/bundle.rs; the payload `Vec<u8>` is a list of
byte values. -/
structure Bundle where
  primary : PrimaryBlock
  payload : List Nat
deriving DecidableEq

/-- `Bundle::is_expired` (src/bpv7/bundle.rs): `now > creation_timestamp +
lifetime` where the `+` is Rust `u64` addition, which wraps modulo
`2 ^ 64` in release builds; `now` is the wall clock passed explicitly. -/
def Bundle.isExpired (b : Bundle) (now : Nat) : Bool :=
  now > (b.primary.creationTimestamp + b.primary.lifetime) % u64Size

/-- `EndpointId` from src/bpv7/endpoint.rs: a string wrapper compared by
exact string equality. -/
structure EndpointId where
  id : String
deriving DecidableEq

/-! ## BundleDescriptor (src/store/bundle_descriptor.rs) -/

/-- `BundleDescriptor`: a bundle plus transient forwarding bookkeeping.
The Rust `HashSet<EndpointId>` is modelled as a list used only through
membership. -/
structure BundleDescriptor where
  bundle : Bundle
  alreadySent : List EndpointId
  forwardingAttempts : Nat
  createdAt : Nat

/-- `BundleDescriptor::has_been_sent_to`: membership in `already_sent`. -/
def BundleDescriptor.hasBeenSentTo (d : BundleDescriptor) (eid : EndpointId) : Bool :=
  decide (eid ∈ d.alreadySent)

/-- `BundleDescriptor::is_ready_for_forwarding`: not expired and below the
attempt limit. -/
def BundleDescriptor.isReadyForForwarding (d : BundleDescriptor) (maxAttempts now : Nat) : Bool :=
  !(d.bundle.isExpired now) && decide (d.forwardingAttempts < maxAttempts)

/-! ## ClaPeer (src/routing/algorithm.rs trait, observable interface)

The `ClaPeer` trait object is modelled by a structure holding the values
its accessors return. -/

/-- Observable interface of a `dyn ClaPeer` (src/routing/algorithm.rs):
endpoint id, CLA type, connection address, and the reachability the async
probe would report. -/
structure ClaPeer where
  peerEndpointId : EndpointId
  claType : String
  connectionAddress : String
  reachable : Bool
deriving DecidableEq

/-- `ClaPeer::get_peer_endpoint_id`. -/
def ClaPeer.getPeerEndpointId (p : ClaPeer) : EndpointId :=
  p.peerEndpointId

/-! ## RoutingTable (src/routing/algorithm.rs) -/

/-- `RouteEntry` from src/routing/algorithm.rs. `cost : u32` is modelled
as `Nat`. -/
structure RouteEntry where
  destination : EndpointId
  nextHop : EndpointId
  claType : String
  cost : Nat
  isActive : Bool
deriving DecidableEq

/-- `RoutingTable`: the `HashMap<EndpointId, Vec<RouteEntry>>` is an
association list (key order models the unspecified hash-map iteration
order). -/
structure RoutingTable where
  routes : List (EndpointId × List RouteEntry)

/-- `RoutingTable::new`. -/
def RoutingTable.new : RoutingTable :=
  ⟨[]⟩

/-- `RoutingTable::add_route`: `entry(destination).or_default().push(entry)`. -/
def RoutingTable.addRoute (t : RoutingTable) (e : RouteEntry) : RoutingTable :=
  if t.routes.any (fun kv => kv.1 = e.destination) then
    ⟨t.routes.map (fun kv => if kv.1 = e.destination then (kv.1, kv.2 ++ [e]) else kv)⟩
  else
    ⟨t.routes ++ [(e.destination, [e])]⟩

/-- First-match association-list lookup, modelling map access keyed by
decidable equality. -/
def assocLookup {κ α : Type} [DecidableEq κ] : List (κ × α) → κ → Option α
| [], _ => none
| (k, v) :: rest, key => if k = key then some v else assocLookup rest key

/-- `RoutingTable::get_routes_for_destination`: the destination's entries
filtered to active ones. -/
def RoutingTable.getRoutesForDestination (t : RoutingTable) (dest : EndpointId) : List RouteEntry :=
  match assocLookup t.routes dest with
  | some rs => rs.filter (fun r => r.isActive)
  | none => []

/-- `RoutingTable::get_all_routes`: all entries of all destinations,
filtered to active ones. -/
def RoutingTable.getAllRoutes (t : RoutingTable) : List RouteEntry :=
  (t.routes.map (fun kv => kv.2)).flatten.filter (fun r => r.isActive)

/-- `Iterator::min_by_key(cost)`: the first entry of minimum cost, as
Rust returns the first of several equally minimal elements. -/
def minByCostFirst : List RouteEntry → Option RouteEntry
| [] => none
| r :: rs =>
  match minByCostFirst rs with
  | none => some r
  | some m => if m.cost < r.cost then some m else some r

/-- `RoutingTable::find_best_route`: minimum-cost active route for a
destination. -/
def RoutingTable.findBestRoute (t : RoutingTable) (dest : EndpointId) : Option RouteEntry :=
  minByCostFirst (t.getRoutesForDestination dest)

/-! ## EpidemicRouting (src/routing/epidemic.rs) -/

/-- Loop body of `EpidemicRouting::select_peers_for_forwarding`: `seen`
models the `HashSet` of endpoint ids inserted so far; a peer is kept when
it was not already sent to and its id is newly inserted. -/
def selectPeersLoop (d : BundleDescriptor) : List ClaPeer → List EndpointId → List ClaPeer
| [], _ => []
| p :: ps, seen =>
  if d.hasBeenSentTo p.getPeerEndpointId = false ∧ p.getPeerEndpointId ∉ seen then
    p :: selectPeersLoop d ps (p.getPeerEndpointId :: seen)
  else
    selectPeersLoop d ps seen

/-- `EpidemicRouting::select_peers_for_forwarding`
(src/routing/epidemic.rs). -/
def EpidemicRouting.selectPeersForForwarding (d : BundleDescriptor) (allPeers : List ClaPeer) :
    List ClaPeer :=
  selectPeersLoop d allPeers []

/-- `EpidemicRouting::select_routes_for_forwarding`
(src/routing/epidemic.rs): the body is literally `Vec::new()` — epidemic
routing does not consult the routing table. -/
def EpidemicRouting.selectRoutesForForwarding (_d : BundleDescriptor) (_t : RoutingTable) :
    List RouteEntry :=
  []

/-! ## Specification-side selection functions

These follow the spec's words and are compared against the source
definitions above. -/

/-- De-duplication by a key, keeping the first occurrence of each key;
`seen` is the accumulator of keys already kept. -/
def dedupByKeyFirstAux {α β : Type} [DecidableEq β] (key : α → β) :
    List α → List β → List α
| [], _ => []
| x :: xs, seen =>
  if key x ∈ seen then dedupByKeyFirstAux key xs seen
  else x :: dedupByKeyFirstAux key xs (key x :: seen)

/-- De-duplication by a key, keeping the first occurrence of each key. -/
def dedupByKeyFirst {α β : Type} [DecidableEq β] (key : α → β) (l : List α) : List α :=
  dedupByKeyFirstAux key l []

/-- The spec's description of epidemic peer selection: keep candidates not
already sent to, de-duplicated by endpoint id (first occurrence wins);
the function reads nothing of the descriptor but `already_sent`. -/
def specSelectPeersForForwarding (alreadySent : List EndpointId) (allPeers : List ClaPeer) :
    List ClaPeer :=
  dedupByKeyFirst ClaPeer.getPeerEndpointId
    (allPeers.filter (fun p => decide (p.getPeerEndpointId ∉ alreadySent)))

/-- The spec's description of `select_routes_for_forwarding`: all active
routes whose next hop is not in `already_sent`, de-duplicated by next
hop, as owned copies. -/
def specSelectRoutesForForwarding (d : BundleDescriptor) (t : RoutingTable) : List RouteEntry :=
  dedupByKeyFirst RouteEntry.nextHop
    (t.getAllRoutes.filter (fun r => d.hasBeenSentTo r.nextHop = false))

/-! ## Binary bundle encoding

Modelled from the spec: `serde_cbor` (an external crate, not part of this
repository) "serializes the bundle to a compact binary encoding".  It is
modelled as an injective, self-delimiting encoding with a total decoder
that fails on malformed input; the claims use only that decoding inverts
encoding and that undecodable byte sequences exist. -/

/-- Modelled from the spec: serialization of one string field — its
character count followed by its character codes. -/
def encodeString (s : String) : List Nat :=
  s.length :: s.data.map Char.toNat

/-- Modelled from the spec: deserialization of one string field,
returning the remaining input. -/
def decodeString : List Nat → Option (String × List Nat)
| [] => none
| n :: rest =>
  if n ≤ rest.length then
    some (String.mk ((rest.take n).map Char.ofNat), rest.drop n)
  else none

/-- Modelled from the spec: serialization of a `Bundle`, fields in
declaration order. -/
def encodeBundle (b : Bundle) : List Nat :=
  b.primary.version ::
    (encodeString b.primary.destination ++ encodeString b.primary.source ++
      encodeString b.primary.reportTo ++
      (b.primary.creationTimestamp :: b.primary.lifetime :: b.payload.length :: b.payload))

/-- Modelled from the spec: deserialization of a `Bundle`; any leftover
or missing input is a decode failure. -/
def decodeBundle (l : List Nat) : Option Bundle :=
  match l with
  | [] => none
  | v :: r0 =>
    match decodeString r0 with
    | none => none
    | some (dest, r1) =>
      match decodeString r1 with
      | none => none
      | some (src, r2) =>
        match decodeString r2 with
        | none => none
        | some (rep, r3) =>
          match r3 with
          | ct :: lt :: plen :: pay =>
            if plen = pay.length then some ⟨⟨v, dest, src, rep, ct, lt⟩, pay⟩ else none
          | _ => none

/-! ## BundleStore (src/store/file.rs)

The store directory is an association list from file stem (the identifier
`list()` reports) to file bytes.  `filename_for` hashes the id string
below with SHA-256 and appends `.cbor`; since the digest is a
deterministic function of the id string, the embedding keys files by the
id string itself: equal id strings name the same file, and distinct id
strings name distinct files exactly when SHA-256 does not collide on
them. -/

/-- The contents of one simulated store directory: file stem paired with
file bytes. -/
abbrev StoreState := List (String × List Nat)

/-- Failure kinds of store operations: the `io::ErrorKind::NotFound` the
code inspects, and any other load failure (a `serde_cbor` decode
error). -/
inductive StoreError
| notFound
| decodeError
deriving DecidableEq

deriving instance DecidableEq for Except

/-- The pre-image string hashed by `BundleStore::filename_for`
(src/store/file.rs): `"{version}:{source}:{destination}:{creation_timestamp}"`. -/
def storeIdString (b : Bundle) : String :=
  toString b.primary.version ++ ":" ++ b.primary.source ++ ":" ++
    b.primary.destination ++ ":" ++ toString b.primary.creationTimestamp

/-- Writing a file: replace the contents under an existing stem, else
create a new directory entry. -/
def setKey : StoreState → String → List Nat → StoreState
| [], k, v => [(k, v)]
| (k0, v0) :: rest, k, v =>
  if k0 = k then (k, v) :: rest else (k0, v0) :: setKey rest k v

/-- Removing a file by stem. -/
def removeFile (st : StoreState) (id : String) : StoreState :=
  st.filter (fun e => decide (e.1 ≠ id))

/-- `BundleStore::insert`: write the encoded bundle under its id string,
silently overwriting on collision. -/
def BundleStore.insert (st : StoreState) (b : Bundle) : StoreState :=
  setKey st (storeIdString b) (encodeBundle b)

/-- `BundleStore::list`: the file stems currently present, in directory
order. -/
def BundleStore.list (st : StoreState) : List String :=
  st.map (fun e => e.1)

/-- `BundleStore::load`: exact-id read; a missing file is `NotFound`, an
undecodable file a decode error. -/
def BundleStore.load (st : StoreState) (idHash : String) : Except StoreError Bundle :=
  match assocLookup st idHash with
  | none => .error .notFound
  | some data =>
    match decodeBundle data with
    | none => .error .decodeError
    | some b => .ok b

/-- `String::starts_with` on character lists. -/
def listIsPrefixOf : List Char → List Char → Bool
| [], _ => true
| _ :: _, [] => false
| a :: as, b :: bs => a = b && listIsPrefixOf as bs

/-- `id.starts_with(part)` for strings. -/
def strStartsWith (s part : String) : Bool :=
  listIsPrefixOf part.data s.data

/-- `BundleStore::find_by_partial_id`: the first listed id starting with
the query. -/
def BundleStore.findByPartialId (st : StoreState) (part : String) : Option String :=
  (BundleStore.list st).find? (fun id => strStartsWith id part)

/-- `BundleStore::load_by_partial_id`: load the first match, else the
"Bundle ID not found" error. -/
def BundleStore.loadByPartialId (st : StoreState) (part : String) : Except StoreError Bundle :=
  match BundleStore.findByPartialId st part with
  | some fullId => BundleStore.load st fullId
  | none => .error .notFound

/-- `BundleStore::dispatch_one`: rename the bundle's file (named by
`filename_for` of the bundle being dispatched) from the store into the
dispatched directory; a missing source file is an error. -/
def BundleStore.dispatchOne (st disp : StoreState) (b : Bundle) :
    Except StoreError (StoreState × StoreState) :=
  match assocLookup st (storeIdString b) with
  | none => .error .notFound
  | some data => .ok (removeFile st (storeIdString b), setKey disp (storeIdString b) data)

/-- Loop body of `BundleStore::cleanup_expired` over the ids obtained
from `list()`: a `NotFound` load is skipped, any other load failure
propagates, and an expired bundle's file is removed. -/
def cleanupLoop (now : Nat) : List String → StoreState → Except StoreError StoreState
| [], st => .ok st
| id :: ids, st =>
  match BundleStore.loadByPartialId st id with
  | .error .notFound => cleanupLoop now ids st
  | .error e => .error e
  | .ok b =>
    if b.isExpired now then cleanupLoop now ids (removeFile st id)
    else cleanupLoop now ids st

/-- `BundleStore::cleanup_expired` (src/store/file.rs). -/
def BundleStore.cleanupExpired (now : Nat) (st : StoreState) : Except StoreError StoreState :=
  cleanupLoop now (BundleStore.list st) st

/-! ## TCP dialer (src/cla/tcp/client.rs)

`send_bundle` performs socket I/O; its per-iteration outcome is an oracle
`sendOk : Nat → Bool` indexed by iteration count.  The dialer walks the
listed bundles in order, loads each by its full id through
`load_by_partial_id`, and dispatches exactly the ones whose send-and-ack
step succeeded; a load or dispatch failure propagates. -/

/-- Loop body of `TcpClaDialer::activate` over the listed ids; `n` counts
iterations for the send-outcome oracle. -/
def activateLoop (sendOk : Nat → Bool) :
    List String → StoreState → StoreState → Nat → Except StoreError (StoreState × StoreState)
| [], st, disp, _ => .ok (st, disp)
| id :: ids, st, disp, n =>
  match BundleStore.loadByPartialId st id with
  | .error e => .error e
  | .ok b =>
    if sendOk n then
      match BundleStore.dispatchOne st disp b with
      | .error e => .error e
      | .ok (st2, disp2) => activateLoop sendOk ids st2 disp2 (n + 1)
    else
      activateLoop sendOk ids st disp (n + 1)

/-- `TcpClaDialer::activate` (src/cla/tcp/client.rs), given the store,
the dispatched directory and the send-outcome oracle. -/
def TcpClaDialer.activate (sendOk : Nat → Bool) (st disp : StoreState) :
    Except StoreError (StoreState × StoreState) :=
  activateLoop sendOk (BundleStore.list st) st disp 0

/-- The ids whose send-and-ack step succeeds, in iteration order,
starting at iteration `n`. -/
def sentIdsFrom (sendOk : Nat → Bool) : List String → Nat → List String
| [], _ => []
| id :: ids, n =>
  if sendOk n then id :: sentIdsFrom sendOk ids (n + 1)
  else sentIdsFrom sendOk ids (n + 1)

/-! ## TCP listener framing (src/cla/tcp/server.rs)

`handle_connection` reads length-prefixed frames from a byte stream until
EOF.  The stream is the connection's byte transcript; the result records
the callback invocations, the acknowledgment writes, and whether the
handler returned `Ok` (an `UnexpectedEof` on the 4-byte prefix read
breaks the loop normally) or propagated an error (EOF inside a frame, or
a `serde_cbor` decode failure). -/

/-- `u32::from_be_bytes`: big-endian byte-list value. -/
def bytesToNat (l : List Nat) : Nat :=
  l.foldl (fun a b => a * 256 + b) 0

/-- Big-endian bytes of a number, at a fixed width. -/
def natToBytesBE : Nat → Nat → List Nat
| 0, _ => []
| k + 1, n => natToBytesBE k (n / 256) ++ [n % 256]

/-- The 2-byte ASCII acknowledgment `OK` the listener writes after a
successful decode. -/
def okBytes : List Nat := [79, 75]

/-- The 5-byte ASCII string `ERROR` the spec says the listener writes on
a decode failure. -/
def errorBytes : List Nat := [69, 82, 82, 79, 82]

/-- Fuel-indexed framing loop of `handle_connection`; the fuel only needs
to exceed the stream length (each iteration consumes at least the 4-byte
prefix).  Returns (callback invocations, writes, handler returned Ok). -/
def handleConnLoop : Nat → List Nat → List Bundle × List (List Nat) × Bool
| 0, _ => ([], [], true)
| fuel + 1, stream =>
  if stream.length < 4 then ([], [], true)
  else
    let len := bytesToNat (stream.take 4)
    let rest := stream.drop 4
    if rest.length < len then ([], [], false)
    else
      match decodeBundle (rest.take len) with
      | none => ([], [], false)
      | some b =>
        let r := handleConnLoop fuel (rest.drop len)
        (b :: r.1, okBytes :: r.2.1, r.2.2)

/-- `handle_connection` (src/cla/tcp/server.rs) on a finite connection
transcript. -/
def handleConnection (stream : List Nat) : List Bundle × List (List Nat) × Bool :=
  handleConnLoop (stream.length + 1) stream

/-! ## Encoding round-trip -/

theorem decodeString_encodeString (s : String) (rest : List Nat) :
    decodeString (encodeString s ++ rest) = some (s, rest) := by
  have hlen : (s.data.map Char.toNat).length = s.length := by
    rw [List.length_map]; rfl
  simp only [encodeString, List.cons_append, decodeString]
  rw [List.take_left' hlen, List.drop_left' hlen, if_pos]
  · simp only [List.map_map]
    have hmap : s.data.map (Char.ofNat ∘ Char.toNat) = s.data := by
      simp [Function.comp_def, Char.ofNat_toNat]
    rw [hmap]
  · rw [List.length_append, hlen]
    exact Nat.le_add_right _ _

theorem decodeBundle_encodeBundle (b : Bundle) : decodeBundle (encodeBundle b) = some b := by
  obtain ⟨⟨v, dest, src, rep, ct, lt⟩, pay⟩ := b
  simp only [encodeBundle, decodeBundle, List.append_assoc, List.cons_append,
    decodeString_encodeString]
  simp

/-! ## Example fixtures used by concrete parts of the claims -/

/-- Example peer P1. -/
def exPeer1 : ClaPeer := ⟨⟨"dtn://p1"⟩, "tcp", "127.0.0.1:3001", true⟩

/-- Example peer P2. -/
def exPeer2 : ClaPeer := ⟨⟨"dtn://p2"⟩, "tcp", "127.0.0.1:3002", true⟩

/-- Example bundle. -/
def exBundleA : Bundle := ⟨⟨7, "dtn://b", "dtn://a", "none", 1000, 3600⟩, [104, 105]⟩

/-- Descriptor for `exBundleA` with nothing sent yet. -/
def exDescNone : BundleDescriptor := ⟨exBundleA, [], 0, 1000⟩

/-- Descriptor for `exBundleA` after marking P1 as sent. -/
def exDescSentP1 : BundleDescriptor := ⟨exBundleA, [⟨"dtn://p1"⟩], 0, 1000⟩

/-- Destination used by the routing-table example. -/
def exDest : EndpointId := ⟨"dtn://dst"⟩

/-- Active example route to `exDest` with the given cost. -/
def exCostRoute (c : Nat) : RouteEntry :=
  ⟨exDest, ⟨"dtn://hop" ++ toString c⟩, "tcp", c, true⟩

/-- Example table holding active routes of cost 100, 5 and 50 to one
destination. -/
def exCostTable : RoutingTable :=
  ((RoutingTable.new.addRoute (exCostRoute 100)).addRoute (exCostRoute 5)).addRoute
    (exCostRoute 50)

/-- Example table holding one active route. -/
def exTableOne : RoutingTable :=
  RoutingTable.new.addRoute (exCostRoute 10)

/-! ## C3: epidemic peer selection -/

theorem selectPeersLoop_spec (d : BundleDescriptor) :
    ∀ (ps : List ClaPeer) (seen : List EndpointId),
      selectPeersLoop d ps seen =
        dedupByKeyFirstAux ClaPeer.getPeerEndpointId
          (ps.filter (fun p => decide (p.getPeerEndpointId ∉ d.alreadySent))) seen := by
  intro ps
  induction ps with
  | nil => intro seen; simp [selectPeersLoop, dedupByKeyFirstAux]
  | cons p ps ih =>
    intro seen
    by_cases hs : p.getPeerEndpointId ∈ d.alreadySent
    · have h1 : selectPeersLoop d (p :: ps) seen = selectPeersLoop d ps seen := by
        rw [selectPeersLoop, if_neg]
        simp [BundleDescriptor.hasBeenSentTo, hs]
      have h2 : (p :: ps).filter (fun q => decide (q.getPeerEndpointId ∉ d.alreadySent)) =
          ps.filter (fun q => decide (q.getPeerEndpointId ∉ d.alreadySent)) := by
        rw [List.filter_cons, if_neg]
        simp [hs]
      rw [h1, h2, ih]
    · have h2 : (p :: ps).filter (fun q => decide (q.getPeerEndpointId ∉ d.alreadySent)) =
          p :: ps.filter (fun q => decide (q.getPeerEndpointId ∉ d.alreadySent)) := by
        rw [List.filter_cons, if_pos]
        simp [hs]
      by_cases hseen : p.getPeerEndpointId ∈ seen
      · have h1 : selectPeersLoop d (p :: ps) seen = selectPeersLoop d ps seen := by
          rw [selectPeersLoop, if_neg]
          simp [BundleDescriptor.hasBeenSentTo, hs, hseen]
        rw [h1, h2, dedupByKeyFirstAux, if_pos hseen, ih]
      · have h1 : selectPeersLoop d (p :: ps) seen =
            p :: selectPeersLoop d ps (p.getPeerEndpointId :: seen) := by
          rw [selectPeersLoop, if_pos]
          exact ⟨by simp [BundleDescriptor.hasBeenSentTo, hs], hseen⟩
        rw [h1, h2, dedupByKeyFirstAux, if_neg hseen, ih]

/-- C3: epidemic `select_peers_for_forwarding` returns exactly the
candidates whose endpoint id is not in `already_sent`, de-duplicated by
endpoint id (first occurrence wins), reading nothing of the descriptor
but `already_sent` (so the bundle's destination is ignored); on the
candidates P1, P2, P1-duplicate it returns P1, P2 with nothing sent and
P2 after marking P1 sent. -/
theorem epidemic_select_peers_matches_spec :
    (∀ (d : BundleDescriptor) (allPeers : List ClaPeer),
      EpidemicRouting.selectPeersForForwarding d allPeers =
        specSelectPeersForForwarding d.alreadySent allPeers) ∧
    (∀ (d d2 : BundleDescriptor) (allPeers : List ClaPeer),
      d.alreadySent = d2.alreadySent →
      EpidemicRouting.selectPeersForForwarding d allPeers =
        EpidemicRouting.selectPeersForForwarding d2 allPeers) ∧
    EpidemicRouting.selectPeersForForwarding exDescNone [exPeer1, exPeer2, exPeer1] =
      [exPeer1, exPeer2] ∧
    EpidemicRouting.selectPeersForForwarding exDescSentP1 [exPeer1, exPeer2, exPeer1] =
      [exPeer2] := by
  have hmain : ∀ (d : BundleDescriptor) (allPeers : List ClaPeer),
      EpidemicRouting.selectPeersForForwarding d allPeers =
        specSelectPeersForForwarding d.alreadySent allPeers := by
    intro d allPeers
    have h := selectPeersLoop_spec d allPeers []
    simpa [EpidemicRouting.selectPeersForForwarding, specSelectPeersForForwarding,
      dedupByKeyFirst, BundleDescriptor.hasBeenSentTo] using h
  refine ⟨hmain, ?_, by decide, by decide⟩
  intro d d2 allPeers hsent
  rw [hmain d allPeers, hmain d2 allPeers, hsent]

/-- C3 witness: destination-independence applied at two concrete
descriptors sharing `already_sent` but differing in their bundle. -/
theorem epidemic_select_peers_matches_spec_witness :
    EpidemicRouting.selectPeersForForwarding exDescNone [exPeer1, exPeer2, exPeer1] =
      EpidemicRouting.selectPeersForForwarding ⟨⟨⟨7, "dtn://other", "dtn://a", "none", 1, 1⟩, []⟩, [], 3, 5⟩
        [exPeer1, exPeer2, exPeer1] :=
  epidemic_select_peers_matches_spec.2.1 exDescNone
    ⟨⟨⟨7, "dtn://other", "dtn://a", "none", 1, 1⟩, []⟩, [], 3, 5⟩
    [exPeer1, exPeer2, exPeer1] (by decide)

/-! ## C2: route selection from the routing table -/

/-- C2 counterexample: at a descriptor with nothing sent and a table with
one active route, the source function returns the empty vector while the
claim demands that route. -/
theorem epidemic_select_routes_claim_cex :
    EpidemicRouting.selectRoutesForForwarding exDescNone exTableOne ≠
      specSelectRoutesForForwarding exDescNone exTableOne := by
  decide

/-- C2 amended: epidemic `select_routes_for_forwarding` returns the empty
vector for every descriptor and routing table (epidemic routing does not
consult routing tables). -/
theorem epidemic_select_routes_returns_empty :
    ∀ (d : BundleDescriptor) (t : RoutingTable),
      EpidemicRouting.selectRoutesForForwarding d t = [] :=
  fun _ _ => rfl

/-! ## C5: routing-table queries -/

theorem minByCostFirst_eq_none_iff (l : List RouteEntry) :
    minByCostFirst l = none ↔ l = [] := by
  cases l with
  | nil => simp [minByCostFirst]
  | cons r rs =>
    cases h : minByCostFirst rs with
    | none => simp [minByCostFirst, h]
    | some m => simp [minByCostFirst, h]; split <;> simp

theorem minByCostFirst_mem : ∀ {l : List RouteEntry} {r : RouteEntry},
    minByCostFirst l = some r → r ∈ l := by
  intro l
  induction l with
  | nil => intro r h; simp [minByCostFirst] at h
  | cons x xs ih =>
    intro r h
    rw [minByCostFirst] at h
    cases hx : minByCostFirst xs with
    | none =>
      rw [hx] at h
      dsimp only at h
      cases h
      exact List.mem_cons_self _ _
    | some m =>
      rw [hx] at h
      dsimp only at h
      by_cases hc : m.cost < x.cost
      · rw [if_pos hc] at h
        cases h
        exact List.mem_cons_of_mem _ (ih hx)
      · rw [if_neg hc] at h
        cases h
        exact List.mem_cons_self _ _

theorem minByCostFirst_le : ∀ {l : List RouteEntry} {r : RouteEntry},
    minByCostFirst l = some r → ∀ x ∈ l, r.cost ≤ x.cost := by
  intro l
  induction l with
  | nil => intro r h; simp [minByCostFirst] at h
  | cons y ys ih =>
    intro r h x hx
    rw [minByCostFirst] at h
    cases hy : minByCostFirst ys with
    | none =>
      rw [hy] at h
      dsimp only at h
      cases h
      have hys : ys = [] := (minByCostFirst_eq_none_iff ys).1 hy
      subst hys
      simp at hx
      subst hx
      exact le_refl _
    | some m =>
      rw [hy] at h
      dsimp only at h
      by_cases hc : m.cost < y.cost
      · rw [if_pos hc] at h
        cases h
        rcases List.mem_cons.1 hx with rfl | hxys
        · exact le_of_lt hc
        · exact ih hy x hxys
      · rw [if_neg hc] at h
        cases h
        rcases List.mem_cons.1 hx with rfl | hxys
        · exact le_refl _
        · have hm := ih hy x hxys
          omega

/-- C5: inactive entries are excluded from every routing-table query, and
`find_best_route` returns an active minimum-cost entry for the
destination, or none exactly when the destination has no active routes;
over active routes of cost 100, 5, 50 to one destination it returns the
cost-5 entry. -/
theorem routing_table_filters_inactive_and_min_cost :
    (∀ (t : RoutingTable) (dest : EndpointId) (r : RouteEntry),
      r ∈ t.getRoutesForDestination dest → r.isActive = true) ∧
    (∀ (t : RoutingTable) (r : RouteEntry), r ∈ t.getAllRoutes → r.isActive = true) ∧
    (∀ (t : RoutingTable) (dest : EndpointId) (r : RouteEntry),
      t.findBestRoute dest = some r →
        r.isActive = true ∧ r ∈ t.getRoutesForDestination dest ∧
        ∀ x ∈ t.getRoutesForDestination dest, r.cost ≤ x.cost) ∧
    (∀ (t : RoutingTable) (dest : EndpointId),
      t.findBestRoute dest = none ↔ t.getRoutesForDestination dest = []) ∧
    RoutingTable.findBestRoute exCostTable exDest = some (exCostRoute 5) := by
  have hdest : ∀ (t : RoutingTable) (dest : EndpointId) (r : RouteEntry),
      r ∈ t.getRoutesForDestination dest → r.isActive = true := by
    intro t dest r hr
    unfold RoutingTable.getRoutesForDestination at hr
    cases h : assocLookup t.routes dest with
    | none => rw [h] at hr; simp at hr
    | some rs => rw [h] at hr; exact (List.mem_filter.1 hr).2
  refine ⟨hdest, ?_, ?_, ?_, by decide⟩
  · intro t r hr
    exact (List.mem_filter.1 hr).2
  · intro t dest r h
    have hmem := minByCostFirst_mem h
    exact ⟨hdest t dest r hmem, hmem, minByCostFirst_le h⟩
  · intro t dest
    exact minByCostFirst_eq_none_iff _

/-- C5 witness: the minimum-cost characterization applied at the concrete
cost-100/5/50 table. -/
theorem routing_table_filters_inactive_and_min_cost_witness :
    (exCostRoute 5).isActive = true ∧
    exCostRoute 5 ∈ RoutingTable.getRoutesForDestination exCostTable exDest ∧
    ∀ x ∈ RoutingTable.getRoutesForDestination exCostTable exDest,
      (exCostRoute 5).cost ≤ x.cost :=
  routing_table_filters_inactive_and_min_cost.2.2.1 exCostTable exDest (exCostRoute 5)
    (by decide)

/-! ## Framing lemmas (src/cla/tcp/server.rs) -/

theorem length_natToBytesBE : ∀ (k n : Nat), (natToBytesBE k n).length = k := by
  intro k
  induction k with
  | zero => intro n; rfl
  | succ k ih => intro n; simp [natToBytesBE, ih]

theorem foldl_natToBytesBE : ∀ (k n acc : Nat), n < 256 ^ k →
    (natToBytesBE k n).foldl (fun a b => a * 256 + b) acc = acc * 256 ^ k + n := by
  intro k
  induction k with
  | zero =>
    intro n acc h
    simp [natToBytesBE]
    omega
  | succ k ih =>
    intro n acc h
    have hdiv : n / 256 < 256 ^ k := by
      rw [Nat.div_lt_iff_lt_mul (by norm_num : 0 < 256)]
      calc n < 256 ^ (k + 1) := h
        _ = 256 ^ k * 256 := by rw [pow_succ]
    rw [natToBytesBE, List.foldl_append, ih (n / 256) acc hdiv]
    simp only [List.foldl_cons, List.foldl_nil]
    have hmod := Nat.div_add_mod n 256
    rw [pow_succ]
    ring_nf
    omega

theorem bytesToNat_natToBytesBE (k n : Nat) (h : n < 256 ^ k) :
    bytesToNat (natToBytesBE k n) = n := by
  have := foldl_natToBytesBE k n 0 h
  simpa [bytesToNat] using this

theorem handleConnLoop_fuel_irrel : ∀ (f1 f2 : Nat) (stream : List Nat),
    stream.length < f1 → stream.length < f2 →
    handleConnLoop f1 stream = handleConnLoop f2 stream := by
  intro f1
  induction f1 with
  | zero => intro f2 stream h1; omega
  | succ a ih =>
    intro f2 stream h1 h2
    cases f2 with
    | zero => omega
    | succ b =>
      simp only [handleConnLoop]
      by_cases h4 : stream.length < 4
      · rw [if_pos h4, if_pos h4]
      · rw [if_neg h4, if_neg h4]
        by_cases hr : (stream.drop 4).length < bytesToNat (stream.take 4)
        · rw [if_pos hr, if_pos hr]
        · rw [if_neg hr, if_neg hr]
          have hlt : ((stream.drop 4).drop (bytesToNat (stream.take 4))).length <
              stream.length := by
            simp only [List.length_drop]
            omega
          have hrec := ih b ((stream.drop 4).drop (bytesToNat (stream.take 4)))
            (by omega) (by omega)
          cases hd : decodeBundle ((stream.drop 4).take (bytesToNat (stream.take 4))) with
          | none => rfl
          | some bnd =>
            dsimp only
            rw [hrec]

/-- One successful or failing frame at the head of the transcript: the
4-byte big-endian length prefix is followed by that many payload bytes;
the handler decodes the payload and either continues or stops with an
error. -/
theorem handleConnection_frame (payload tail : List Nat) (h : payload.length < 2 ^ 32) :
    handleConnection (natToBytesBE 4 payload.length ++ (payload ++ tail)) =
      match decodeBundle payload with
      | none => ([], [], false)
      | some b =>
        (b :: (handleConnection tail).1, okBytes :: (handleConnection tail).2.1,
          (handleConnection tail).2.2) := by
  have hpl : (natToBytesBE 4 payload.length).length = 4 := length_natToBytesBE 4 _
  have hlen : bytesToNat (natToBytesBE 4 payload.length) = payload.length :=
    bytesToNat_natToBytesBE 4 payload.length (by norm_num at h ⊢; omega)
  have hstream : (natToBytesBE 4 payload.length ++ (payload ++ tail)).length =
      4 + (payload.length + tail.length) := by
    simp [hpl]
  rw [handleConnection, hstream]
  simp only [handleConnLoop]
  rw [if_neg (by rw [hstream]; omega)]
  rw [List.take_left' hpl, List.drop_left' hpl, hlen]
  rw [if_neg (by simp only [List.length_append]; omega)]
  rw [List.take_left' rfl, List.drop_left' rfl]
  have hfuel : handleConnLoop (4 + (payload.length + tail.length)) tail =
      handleConnLoop (tail.length + 1) tail :=
    handleConnLoop_fuel_irrel (4 + (payload.length + tail.length)) (tail.length + 1) tail
      (by omega) (by omega)
  cases hd : decodeBundle payload with
  | none => rfl
  | some bnd =>
    dsimp only
    rw [handleConnection, hfuel]

/-! ## C1: listener behaviour per received frame -/

/-- C1 counterexample: on the 4-byte frame declaring a zero-length
payload (whose empty payload fails to decode) the handler returns an
error with an empty write log — the 5-byte `ERROR` acknowledgment the
claim requires is never written and the loop does not continue. -/
theorem tcp_listener_decode_failure_cex :
    handleConnection [0, 0, 0, 0] = ([], [], false) ∧
    errorBytes ∉ (handleConnection [0, 0, 0, 0]).2.1 := by
  decide

/-- C1 amended: for every frame at the head of the transcript, a payload
that decodes as a bundle causes the callback to be invoked with that
bundle, the 2-byte `OK` acknowledgment to be written, and the loop to
continue on the rest of the transcript; a payload that fails to decode
makes the handler return an error immediately — no `ERROR` string is
written, the callback is not invoked, and the connection handler stops. -/
theorem tcp_listener_frame_handling :
    (∀ (b : Bundle) (tail : List Nat), (encodeBundle b).length < 2 ^ 32 →
      handleConnection (natToBytesBE 4 (encodeBundle b).length ++ (encodeBundle b ++ tail)) =
        (b :: (handleConnection tail).1, okBytes :: (handleConnection tail).2.1,
          (handleConnection tail).2.2)) ∧
    (∀ (payload tail : List Nat), payload.length < 2 ^ 32 → decodeBundle payload = none →
      handleConnection (natToBytesBE 4 payload.length ++ (payload ++ tail)) =
        ([], [], false)) := by
  constructor
  · intro b tail h
    rw [handleConnection_frame (encodeBundle b) tail h, decodeBundle_encodeBundle b]
  · intro payload tail h hd
    rw [handleConnection_frame payload tail h, hd]

/-- C1 witness: the success path applied to a concrete encoded bundle
followed by the end of the transcript. -/
theorem tcp_listener_frame_handling_witness :
    handleConnection
        (natToBytesBE 4 (encodeBundle exBundleA).length ++ (encodeBundle exBundleA ++ [])) =
      (exBundleA :: (handleConnection []).1, okBytes :: (handleConnection []).2.1,
        (handleConnection []).2.2) :=
  tcp_listener_frame_handling.1 exBundleA [] (by decide)

/-! ## C8: EOF at a frame boundary versus inside a frame -/

/-- C8: an end-of-file while the handler expects a (complete) 4-byte
length prefix ends the loop without error, while a transcript whose
declared payload length exceeds the remaining bytes — EOF in the middle
of a frame — makes the handler return an error. -/
theorem tcp_listener_eof_semantics :
    (∀ stream : List Nat, stream.length < 4 → handleConnection stream = ([], [], true)) ∧
    (∀ stream : List Nat, 4 ≤ stream.length →
      stream.length - 4 < bytesToNat (stream.take 4) →
      handleConnection stream = ([], [], false)) := by
  constructor
  · intro stream h
    rw [handleConnection]
    simp only [handleConnLoop]
    rw [if_pos h]
  · intro stream h4 hmid
    rw [handleConnection]
    simp only [handleConnLoop]
    rw [if_neg (by omega)]
    rw [if_pos (by simp only [List.length_drop]; omega)]

/-- C8 witness: the empty transcript ends cleanly; a prefix declaring 5
payload bytes followed by a single byte errors. -/
theorem tcp_listener_eof_semantics_witness :
    handleConnection [] = ([], [], true) ∧
    handleConnection [0, 0, 0, 5, 1] = ([], [], false) :=
  ⟨tcp_listener_eof_semantics.1 [] (by decide),
    tcp_listener_eof_semantics.2 [0, 0, 0, 5, 1] (by decide) (by decide)⟩

/-! ## C10: wrapping addition in expiry -/

/-- Bundle whose lifetime is `u64::MAX`, making `creation_timestamp +
lifetime` wrap. -/
def wrapBundle : Bundle := ⟨⟨7, "dtn://b", "dtn://a", "none", 1000, u64Size - 1⟩, []⟩

/-- C10: `is_expired` compares `now` against `creation_timestamp +
lifetime` reduced modulo `2 ^ 64`; when the sum does not overflow this is
the exact comparison, when it overflows the comparison wraps, so a bundle
with lifetime `u64::MAX` is classified as expired; the same comparison is
what `is_ready_for_forwarding` consults, and `cleanup_expired` purges the
wrapped bundle. -/
theorem is_expired_wrapping_add :
    (∀ (b : Bundle) (now : Nat),
      b.primary.creationTimestamp + b.primary.lifetime < u64Size →
      b.isExpired now = decide (now > b.primary.creationTimestamp + b.primary.lifetime)) ∧
    (∀ (b : Bundle) (now : Nat),
      b.isExpired now =
        decide (now > (b.primary.creationTimestamp + b.primary.lifetime) % u64Size)) ∧
    wrapBundle.isExpired 1000 = true ∧
    (∀ (d : BundleDescriptor) (maxAttempts now : Nat),
      d.isReadyForForwarding maxAttempts now =
        (!(d.bundle.isExpired now) && decide (d.forwardingAttempts < maxAttempts))) ∧
    BundleStore.cleanupExpired 1000 (BundleStore.insert [] wrapBundle) = .ok [] := by
  refine ⟨?_, fun b now => rfl, by decide, fun d maxAttempts now => rfl, by decide⟩
  intro b now h
  simp [Bundle.isExpired, Nat.mod_eq_of_lt h]

/-- C10 witness: the non-overflowing comparison applied at a concrete
bundle and clock. -/
theorem is_expired_wrapping_add_witness :
    Bundle.isExpired exBundleA 5000 =
      decide (5000 > exBundleA.primary.creationTimestamp + exBundleA.primary.lifetime) :=
  is_expired_wrapping_add.1 exBundleA 5000 (by decide)

/-! ## C4: store identity -/

/-- Bundle whose source field is the two-segment string a:b. -/
def colBundle1 : Bundle := ⟨⟨7, "c", "a:b", "none", 1000, 60⟩, [1]⟩

/-- Bundle with a different (source, destination) split producing the
same colon-joined id string as `colBundle1`. -/
def colBundle2 : Bundle := ⟨⟨7, "b:c", "a", "none", 1000, 60⟩, [2]⟩

/-- Second example bundle with an id string distinct from `exBundleA`. -/
def exBundleB : Bundle := ⟨⟨7, "dtn://c", "dtn://a", "none", 2000, 3600⟩, [1, 2, 3]⟩

/-- Store holding `exBundleA` and `exBundleB`. -/
def exStoreTwo : StoreState :=
  BundleStore.insert (BundleStore.insert [] exBundleA) exBundleB

/-- C4 counterexample: two bundles with distinct (version, source,
destination, creation_timestamp) tuples — their sources and destinations
differ — whose colon-joined id strings coincide, so inserting both yields
a single identifier and the later insert overwrites the earlier payload
instead of producing two round-tripping records. -/
theorem store_identity_claim_cex :
    colBundle1.primary.source ≠ colBundle2.primary.source ∧
    colBundle1.primary.destination ≠ colBundle2.primary.destination ∧
    storeIdString colBundle1 = storeIdString colBundle2 ∧
    BundleStore.list (BundleStore.insert (BundleStore.insert [] colBundle1) colBundle2) =
      [storeIdString colBundle1] ∧
    BundleStore.load (BundleStore.insert (BundleStore.insert [] colBundle1) colBundle2)
      (storeIdString colBundle1) = .ok colBundle2 := by
  refine ⟨by decide, by decide, by decide, by decide, by decide⟩

/-- C4 amended: the store's on-disk identity is a function of the
colon-joined string version:source:destination:creation_timestamp (the
pre-image `filename_for` hashes): bundles agreeing on the identity tuple
produce equal id strings; two inserts with equal id strings yield one
identifier, the later silently overwriting the earlier; two inserts with
distinct id strings (in particular distinct tuples whose fields embed no
ambiguous colon split) yield two distinct identifiers, each loading back
with its payload intact. -/
theorem store_identity_by_id_string :
    ∀ (b1 b2 : Bundle),
      (b1.primary.version = b2.primary.version → b1.primary.source = b2.primary.source →
        b1.primary.destination = b2.primary.destination →
        b1.primary.creationTimestamp = b2.primary.creationTimestamp →
        storeIdString b1 = storeIdString b2) ∧
      (storeIdString b1 = storeIdString b2 →
        BundleStore.list (BundleStore.insert (BundleStore.insert [] b1) b2) =
          [storeIdString b2] ∧
        BundleStore.load (BundleStore.insert (BundleStore.insert [] b1) b2)
          (storeIdString b2) = .ok b2) ∧
      (storeIdString b1 ≠ storeIdString b2 →
        BundleStore.list (BundleStore.insert (BundleStore.insert [] b1) b2) =
          [storeIdString b1, storeIdString b2] ∧
        BundleStore.load (BundleStore.insert (BundleStore.insert [] b1) b2)
          (storeIdString b1) = .ok b1 ∧
        BundleStore.load (BundleStore.insert (BundleStore.insert [] b1) b2)
          (storeIdString b2) = .ok b2) := by
  intro b1 b2
  refine ⟨?_, ?_, ?_⟩
  · intro hv hs hd hc
    unfold storeIdString
    rw [hv, hs, hd, hc]
  · intro h
    have hrt := decodeBundle_encodeBundle b2
    constructor
    · simp [BundleStore.insert, BundleStore.list, setKey, h]
    · simp [BundleStore.insert, BundleStore.load, setKey, assocLookup, h, hrt]
  · intro h
    have hrt1 := decodeBundle_encodeBundle b1
    have hrt2 := decodeBundle_encodeBundle b2
    refine ⟨?_, ?_, ?_⟩
    · simp [BundleStore.insert, BundleStore.list, setKey, h]
    · simp [BundleStore.insert, BundleStore.load, setKey, assocLookup, h, hrt1]
    · simp [BundleStore.insert, BundleStore.load, setKey, assocLookup, h, Ne.symm h, hrt2]

/-- C4 witness: the distinct-id-string branch applied at two concrete
bundles. -/
theorem store_identity_by_id_string_witness :
    BundleStore.list exStoreTwo = [storeIdString exBundleA, storeIdString exBundleB] ∧
    BundleStore.load exStoreTwo (storeIdString exBundleA) = .ok exBundleA ∧
    BundleStore.load exStoreTwo (storeIdString exBundleB) = .ok exBundleB :=
  (store_identity_by_id_string exBundleA exBundleB).2.2 (by decide)

/-! ## C9: partial-id resolution -/

theorem assocLookup_of_mem_keys :
    ∀ (st : StoreState) (k : String), k ∈ BundleStore.list st →
      ∃ v, assocLookup st k = some v := by
  intro st
  induction st with
  | nil => intro k hk; simp [BundleStore.list] at hk
  | cons e rest ih =>
    intro k hk
    by_cases he : e.1 = k
    · exact ⟨e.2, by simp [assocLookup, he]⟩
    · have hk2 : k ∈ BundleStore.list rest := by
        simp [BundleStore.list] at hk ⊢
        tauto
      obtain ⟨v, hv⟩ := ih k hk2
      exact ⟨v, by simp [assocLookup, he, hv]⟩

/-- C9: `load_by_partial_id` fails with not-found exactly when no listed
identifier starts with the query, and when the first matching identifier
in directory order names a decodable file it returns that file's bundle —
extra matches are never detected, the first match wins. -/
theorem load_by_partial_id_first_match :
    ∀ (st : StoreState) (pre : String),
      (BundleStore.loadByPartialId st pre = .error .notFound ↔
        ∀ id ∈ BundleStore.list st, strStartsWith id pre = false) ∧
      (∀ (fullId : String) (v : List Nat) (b : Bundle),
        (BundleStore.list st).find? (fun id => strStartsWith id pre) = some fullId →
        assocLookup st fullId = some v → decodeBundle v = some b →
        BundleStore.loadByPartialId st pre = .ok b) := by
  intro st pre
  constructor
  · constructor
    · intro h id hid
      by_contra hsw
      rw [Bool.not_eq_false] at hsw
      cases hf : (BundleStore.list st).find? (fun i => strStartsWith i pre) with
      | none =>
        rw [List.find?_eq_none] at hf
        exact hf id hid hsw
      | some k =>
        have hk : k ∈ BundleStore.list st := List.mem_of_find?_eq_some hf
        obtain ⟨v, hv⟩ := assocLookup_of_mem_keys st k hk
        simp only [BundleStore.loadByPartialId, BundleStore.findByPartialId, hf,
          BundleStore.load, hv] at h
        cases hd : decodeBundle v with
        | none => simp [hd] at h
        | some b => simp [hd] at h
    · intro h
      have hf : (BundleStore.list st).find? (fun i => strStartsWith i pre) = none :=
        List.find?_eq_none.2 (by intro x hx; simp [h x hx])
      simp only [BundleStore.loadByPartialId, BundleStore.findByPartialId, hf]
  · intro fullId v b hf hv hd
    simp only [BundleStore.loadByPartialId, BundleStore.findByPartialId, hf,
      BundleStore.load, hv, hd]

/-- C9 witness: with two stored bundles sharing the prefix 7:dtn://a, the
first listed match is returned without an ambiguity error, and an
unmatched prefix yields not-found. -/
theorem load_by_partial_id_first_match_witness :
    BundleStore.loadByPartialId exStoreTwo "7:dtn://a" = .ok exBundleA ∧
    BundleStore.loadByPartialId exStoreTwo "zzz" = .error .notFound :=
  ⟨(load_by_partial_id_first_match exStoreTwo "7:dtn://a").2 (storeIdString exBundleA)
      (encodeBundle exBundleA) exBundleA (by decide) (by decide) (by decide),
    ((load_by_partial_id_first_match exStoreTwo "zzz").1).2 (by decide)⟩

/-! ## Store well-formedness and directory lemmas

The file names `list()` reports are fixed-length hex digests in the real
store, so no listed name is a proper prefix of another; `PrefixFree`
captures that property of the key set, and the well-formedness predicates
capture what `insert` guarantees: every file decodes, and decodes to a
bundle whose id string is the file's stem. -/

/-- No listed identifier starts with another listed identifier without
being equal to it (true of the fixed-length digest names the real store
produces). -/
def PrefixFree (ids : List String) : Prop :=
  ∀ a ∈ ids, ∀ b ∈ ids, strStartsWith a b = true → a = b

/-- A file whose bytes decode to a bundle whose id string is the file's
stem — what `insert` writes. -/
def wfEntry (e : String × List Nat) : Bool :=
  match decodeBundle e.2 with
  | some b => decide (storeIdString b = e.1)
  | none => false

/-- Store directory as `insert` leaves it: distinct, prefix-free stems
and well-formed files. -/
def WfStore (st : StoreState) : Prop :=
  (BundleStore.list st).Nodup ∧ PrefixFree (BundleStore.list st) ∧
    ∀ e ∈ st, wfEntry e = true

/-- Store directory whose files all decode, with distinct prefix-free
stems. -/
def DecodableStore (st : StoreState) : Prop :=
  (BundleStore.list st).Nodup ∧ PrefixFree (BundleStore.list st) ∧
    ∀ e ∈ st, (decodeBundle e.2).isSome = true

instance decPrefixFree (ids : List String) : Decidable (PrefixFree ids) := by
  unfold PrefixFree
  infer_instance

instance decWfStore (st : StoreState) : Decidable (WfStore st) := by
  unfold WfStore
  infer_instance

instance decDecodableStore (st : StoreState) : Decidable (DecodableStore st) := by
  unfold DecodableStore
  infer_instance

/-- Whether a file's bytes decode to a bundle that is expired at `now`. -/
def expiredEntry (now : Nat) (e : String × List Nat) : Bool :=
  match decodeBundle e.2 with
  | some b => b.isExpired now
  | none => false

theorem listIsPrefixOf_self : ∀ l : List Char, listIsPrefixOf l l = true := by
  intro l
  induction l with
  | nil => rfl
  | cons a as ih => simp [listIsPrefixOf, ih]

theorem strStartsWith_self (s : String) : strStartsWith s s = true :=
  listIsPrefixOf_self s.data

theorem find?_self_of_prefixFree (ids : List String) (id : String)
    (hpf : PrefixFree ids) (hm : id ∈ ids) :
    ids.find? (fun k => strStartsWith k id) = some id := by
  cases hf : ids.find? (fun k => strStartsWith k id) with
  | none =>
    rw [List.find?_eq_none] at hf
    exact absurd (strStartsWith_self id) (by simpa using hf id hm)
  | some k =>
    have hk := List.mem_of_find?_eq_some hf
    have hp := List.find?_some hf
    rw [hpf k hk id hm hp]

theorem loadByPartialId_full (st : StoreState) (id : String)
    (hpf : PrefixFree (BundleStore.list st)) (hm : id ∈ BundleStore.list st) :
    BundleStore.loadByPartialId st id = BundleStore.load st id := by
  simp only [BundleStore.loadByPartialId, BundleStore.findByPartialId,
    find?_self_of_prefixFree _ _ hpf hm]

theorem mem_of_assocLookup :
    ∀ (st : StoreState) (k : String) (v : List Nat),
      assocLookup st k = some v → (k, v) ∈ st := by
  intro st
  induction st with
  | nil => intro k v h; simp [assocLookup] at h
  | cons e rest ih =>
    intro k v h
    obtain ⟨k0, v0⟩ := e
    by_cases he : k0 = k
    · subst he
      rw [assocLookup, if_pos rfl] at h
      cases h
      exact List.mem_cons_self _ _
    · rw [assocLookup, if_neg he] at h
      exact List.mem_cons_of_mem _ (ih k v h)

theorem assocLookup_eq_of_mem_nodup :
    ∀ (st : StoreState) (k : String) (v : List Nat),
      (BundleStore.list st).Nodup → (k, v) ∈ st → assocLookup st k = some v := by
  intro st
  induction st with
  | nil => intro k v _ h; simp at h
  | cons e rest ih =>
    intro k v hnd hm
    obtain ⟨k0, v0⟩ := e
    have hcons : BundleStore.list ((k0, v0) :: rest) = k0 :: BundleStore.list rest := by
      simp [BundleStore.list]
    rw [hcons] at hnd
    have hnd2 := List.nodup_cons.1 hnd
    rcases List.mem_cons.1 hm with heq | hm2
    · cases heq
      rw [assocLookup, if_pos rfl]
    · have hk : k ≠ k0 := by
        intro hk
        subst hk
        refine hnd2.1 ?_
        simp only [BundleStore.list, List.mem_map]
        exact ⟨(k, v), hm2, rfl⟩
      rw [assocLookup, if_neg (Ne.symm hk)]
      exact ih k v hnd2.2 hm2

theorem list_append (a b : StoreState) :
    BundleStore.list (a ++ b) = BundleStore.list a ++ BundleStore.list b := by
  simp [BundleStore.list]

theorem mem_keys_removeFile (st : StoreState) (id k : String) :
    k ∈ BundleStore.list (removeFile st id) ↔ k ∈ BundleStore.list st ∧ k ≠ id := by
  simp only [BundleStore.list, removeFile, List.mem_map]
  constructor
  · rintro ⟨e, he, rfl⟩
    have := List.mem_filter.1 he
    exact ⟨⟨e, this.1, rfl⟩, by simpa using this.2⟩
  · rintro ⟨⟨e, he, rfl⟩, hne⟩
    exact ⟨e, List.mem_filter.2 ⟨he, by simpa using hne⟩, rfl⟩

theorem keys_removeFile_sublist (st : StoreState) (id : String) :
    List.Sublist (BundleStore.list (removeFile st id)) (BundleStore.list st) :=
  List.Sublist.map _ (List.filter_sublist st)

theorem assocLookup_removeFile_ne (st : StoreState) (id k : String) (h : k ≠ id) :
    assocLookup (removeFile st id) k = assocLookup st k := by
  induction st with
  | nil => rfl
  | cons e rest ih =>
    obtain ⟨k0, v0⟩ := e
    by_cases he : k0 = id
    · subst he
      have : removeFile ((k0, v0) :: rest) k0 = removeFile rest k0 := by
        simp [removeFile]
      rw [this, ih, assocLookup, if_neg (fun hc => h hc.symm)]
    · have : removeFile ((k0, v0) :: rest) id = (k0, v0) :: removeFile rest id := by
        simp [removeFile, he]
      rw [this]
      by_cases hk : k0 = k
      · rw [assocLookup, if_pos hk, assocLookup, if_pos hk]
      · rw [assocLookup, if_neg hk, assocLookup, if_neg hk, ih]

theorem setKey_append_of_not_mem :
    ∀ (disp : StoreState) (k : String) (v : List Nat),
      k ∉ BundleStore.list disp → setKey disp k v = disp ++ [(k, v)] := by
  intro disp
  induction disp with
  | nil => intro k v _; rfl
  | cons e rest ih =>
    intro k v h
    obtain ⟨k0, v0⟩ := e
    have hne : k0 ≠ k := by
      intro hc
      exact h (by simp [BundleStore.list, hc])
    rw [setKey, if_neg hne, ih k v (fun hc => h (by simp [BundleStore.list]; tauto))]
    rfl

theorem sentIdsFrom_subset (sendOk : Nat → Bool) :
    ∀ (ids : List String) (n : Nat) (k : String),
      k ∈ sentIdsFrom sendOk ids n → k ∈ ids := by
  intro ids
  induction ids with
  | nil => intro n k h; simp [sentIdsFrom] at h
  | cons id ids ih =>
    intro n k h
    rw [sentIdsFrom] at h
    by_cases hs : sendOk n
    · rw [if_pos hs] at h
      rcases List.mem_cons.1 h with rfl | h2
      · exact List.mem_cons_self _ _
      · exact List.mem_cons_of_mem _ (ih (n + 1) k h2)
    · rw [if_neg hs] at h
      exact List.mem_cons_of_mem _ (ih (n + 1) k h)

/-- The dispatched-directory entries the dialer appends: for each id, the
file bytes it carried in the source store. -/
def entriesFor (st : StoreState) : List String → StoreState
| [] => []
| k :: ks =>
  match assocLookup st k with
  | some v => (k, v) :: entriesFor st ks
  | none => entriesFor st ks

theorem entriesFor_congr (st1 st2 : StoreState) :
    ∀ ks : List String, (∀ k ∈ ks, assocLookup st1 k = assocLookup st2 k) →
      entriesFor st1 ks = entriesFor st2 ks := by
  intro ks
  induction ks with
  | nil => intro _; rfl
  | cons k ks ih =>
    intro h
    have hk := h k (List.mem_cons_self _ _)
    have hks := ih fun x hx => h x (List.mem_cons_of_mem _ hx)
    rw [entriesFor, hk, entriesFor]
    cases assocLookup st2 k with
    | none => exact hks
    | some v => rw [hks]

/-! ## C7: cleanup of expired bundles -/

theorem entry_val_unique (st : StoreState) (id : String) (v : List Nat)
    (hknd : (BundleStore.list st).Nodup) (hv : assocLookup st id = some v) :
    ∀ e ∈ st, e.1 = id → e.2 = v := by
  intro e he h1
  have hl : assocLookup st e.1 = some e.2 :=
    assocLookup_eq_of_mem_nodup st e.1 e.2 hknd (by cases e; exact he)
  rw [h1, hv] at hl
  exact (Option.some.inj hl).symm

theorem cleanupLoop_ok (now : Nat) :
    ∀ (ids : List String) (st : StoreState),
      ids.Nodup → (∀ i ∈ ids, i ∈ BundleStore.list st) →
      PrefixFree (BundleStore.list st) → (BundleStore.list st).Nodup →
      (∀ e ∈ st, e.1 ∈ ids → (decodeBundle e.2).isSome = true) →
      cleanupLoop now ids st =
        .ok (st.filter fun e => !(decide (e.1 ∈ ids) && expiredEntry now e)) := by
  intro ids
  induction ids with
  | nil =>
    intro st _ _ _ _ _
    rw [cleanupLoop, List.filter_eq_self.2 (by intro e _; simp)]
  | cons id ids ih =>
    intro st hnd hsub hpf hknd hdec
    have hmem : id ∈ BundleStore.list st := hsub id (List.mem_cons_self _ _)
    obtain ⟨v, hv⟩ := assocLookup_of_mem_keys st id hmem
    have hev : (id, v) ∈ st := mem_of_assocLookup st id v hv
    have hload : BundleStore.loadByPartialId st id = BundleStore.load st id :=
      loadByPartialId_full st id hpf hmem
    have hdecv : (decodeBundle v).isSome = true := hdec (id, v) hev (List.mem_cons_self _ _)
    obtain ⟨b, hb⟩ := Option.isSome_iff_exists.1 hdecv
    have hnd2 := List.nodup_cons.1 hnd
    have hloadok : BundleStore.load st id = .ok b := by
      simp only [BundleStore.load, hv, hb]
    have huniq := entry_val_unique st id v hknd hv
    rw [cleanupLoop, hload, hloadok]
    dsimp only
    by_cases hexp : b.isExpired now
    · rw [if_pos hexp]
      have hsub2 : ∀ i ∈ ids, i ∈ BundleStore.list (removeFile st id) := by
        intro i hi
        refine (mem_keys_removeFile st id i).2 ⟨hsub i (List.mem_cons_of_mem _ hi), ?_⟩
        intro hc
        subst hc
        exact hnd2.1 hi
      have hpf2 : PrefixFree (BundleStore.list (removeFile st id)) := by
        intro a ha b2 hb2 hsw
        exact hpf a ((keys_removeFile_sublist st id).subset ha) b2
          ((keys_removeFile_sublist st id).subset hb2) hsw
      have hknd2 : (BundleStore.list (removeFile st id)).Nodup :=
        (keys_removeFile_sublist st id).nodup hknd
      have hdec2 : ∀ e ∈ removeFile st id, e.1 ∈ ids → (decodeBundle e.2).isSome = true := by
        intro e he hi
        exact hdec e (List.mem_of_mem_filter he) (List.mem_cons_of_mem _ hi)
      rw [ih (removeFile st id) hnd2.2 hsub2 hpf2 hknd2 hdec2]
      rw [removeFile, List.filter_filter]
      congr 1
      refine List.filter_congr ?_
      intro e he
      by_cases h1 : e.1 = id
      · have h2 : e.2 = v := huniq e he h1
        have hexpE : expiredEntry now e = true := by
          simp [expiredEntry, h2, hb, hexp]
        simp [h1, hexpE]
      · simp [h1, List.mem_cons]
    · rw [if_neg hexp]
      rw [ih st hnd2.2 (fun i hi => hsub i (List.mem_cons_of_mem _ hi)) hpf hknd
        (fun e he hi => hdec e he (List.mem_cons_of_mem _ hi))]
      congr 1
      refine List.filter_congr ?_
      intro e he
      by_cases h1 : e.1 = id
      · have h2 : e.2 = v := huniq e he h1
        have hexpE : expiredEntry now e = false := by
          simp [expiredEntry, h2, hb, hexp]
        have hni : e.1 ∉ ids := h1 ▸ hnd2.1
        simp [h1, hexpE, hni]
      · simp [h1, List.mem_cons]

theorem cleanupLoop_decode_error (now : Nat) :
    ∀ (ids : List String) (st : StoreState),
      ids.Nodup → (∀ i ∈ ids, i ∈ BundleStore.list st) →
      PrefixFree (BundleStore.list st) → (BundleStore.list st).Nodup →
      (∃ e ∈ st, e.1 ∈ ids ∧ decodeBundle e.2 = none) →
      cleanupLoop now ids st = .error .decodeError := by
  intro ids
  induction ids with
  | nil =>
    intro st _ _ _ _ hex
    obtain ⟨e, _, hi, _⟩ := hex
    simp at hi
  | cons id ids ih =>
    intro st hnd hsub hpf hknd hex
    obtain ⟨e, he, hi, hde⟩ := hex
    have hmem : id ∈ BundleStore.list st := hsub id (List.mem_cons_self _ _)
    obtain ⟨v, hv⟩ := assocLookup_of_mem_keys st id hmem
    have hload : BundleStore.loadByPartialId st id = BundleStore.load st id :=
      loadByPartialId_full st id hpf hmem
    have hnd2 := List.nodup_cons.1 hnd
    rw [cleanupLoop, hload]
    cases hdv : decodeBundle v with
    | none =>
      have hle : BundleStore.load st id = .error .decodeError := by
        simp only [BundleStore.load, hv, hdv]
      rw [hle]
    | some b =>
      have hloadok : BundleStore.load st id = .ok b := by
        simp only [BundleStore.load, hv, hdv]
      rw [hloadok]
      dsimp only
      have hne : e.1 ≠ id := by
        intro hc
        have h2 := entry_val_unique st id v hknd hv e he hc
        rw [h2, hdv] at hde
        exact Option.noConfusion hde
      have hi2 : e.1 ∈ ids := by
        rcases List.mem_cons.1 hi with hc | h2
        · exact absurd hc hne
        · exact h2
      by_cases hexp : b.isExpired now
      · rw [if_pos hexp]
        have hsub2 : ∀ i ∈ ids, i ∈ BundleStore.list (removeFile st id) := by
          intro i hi3
          refine (mem_keys_removeFile st id i).2 ⟨hsub i (List.mem_cons_of_mem _ hi3), ?_⟩
          intro hc
          subst hc
          exact hnd2.1 hi3
        have hpf2 : PrefixFree (BundleStore.list (removeFile st id)) := by
          intro a ha b2 hb2 hsw
          exact hpf a ((keys_removeFile_sublist st id).subset ha) b2
            ((keys_removeFile_sublist st id).subset hb2) hsw
        have hknd2 : (BundleStore.list (removeFile st id)).Nodup :=
          (keys_removeFile_sublist st id).nodup hknd
        refine ih (removeFile st id) hnd2.2 hsub2 hpf2 hknd2 ⟨e, ?_, hi2, hde⟩
        exact List.mem_filter.2 ⟨he, by simp [hne]⟩
      · rw [if_neg hexp]
        exact ih st hnd2.2 (fun i hi3 => hsub i (List.mem_cons_of_mem _ hi3)) hpf hknd
          ⟨e, he, hi2, hde⟩

/-- Bundle already expired at clock 2000 (expires at 15). -/
def expiredBundle : Bundle := ⟨⟨7, "dtn://b", "dtn://c", "none", 10, 5⟩, [9]⟩

/-- Store holding one expired and one non-expired bundle. -/
def exStoreMixed : StoreState :=
  BundleStore.insert (BundleStore.insert [] expiredBundle) exBundleA

/-- C7: on a store whose files all decode, `cleanup_expired` succeeds and
removes exactly the files of expired bundles, keeping every non-expired
one; a not-found load for a listed id is skipped without failing the
operation; a file whose bytes do not decode makes the operation fail with
the decode error. -/
theorem cleanup_expired_semantics :
    (∀ (now : Nat) (st : StoreState), DecodableStore st →
      BundleStore.cleanupExpired now st =
        .ok (st.filter fun e => !(expiredEntry now e))) ∧
    (∀ (now : Nat) (id : String) (ids : List String) (st : StoreState),
      (∀ k ∈ BundleStore.list st, strStartsWith k id = false) →
      cleanupLoop now (id :: ids) st = cleanupLoop now ids st) ∧
    (∀ (now : Nat) (st : StoreState),
      (BundleStore.list st).Nodup → PrefixFree (BundleStore.list st) →
      (∃ e ∈ st, decodeBundle e.2 = none) →
      BundleStore.cleanupExpired now st = .error .decodeError) := by
  refine ⟨?_, ?_, ?_⟩
  · intro now st hds
    obtain ⟨hknd, hpf, hdec⟩ := hds
    rw [BundleStore.cleanupExpired,
      cleanupLoop_ok now (BundleStore.list st) st hknd (fun i hi => hi) hpf hknd
        (fun e he _ => hdec e he)]
    congr 1
    refine List.filter_congr ?_
    intro e he
    have hm : e.1 ∈ BundleStore.list st := by
      simp only [BundleStore.list, List.mem_map]
      exact ⟨e, he, rfl⟩
    simp [hm]
  · intro now id ids st h
    have hf : (BundleStore.list st).find? (fun k => strStartsWith k id) = none :=
      List.find?_eq_none.2 (by intro x hx; simp [h x hx])
    rw [cleanupLoop]
    simp only [BundleStore.loadByPartialId, BundleStore.findByPartialId, hf]
  · intro now st hknd hpf hex
    obtain ⟨e, he, hde⟩ := hex
    refine cleanupLoop_decode_error now (BundleStore.list st) st hknd (fun i hi => hi) hpf hknd
      ⟨e, he, ?_, hde⟩
    simp only [BundleStore.list, List.mem_map]
    exact ⟨e, he, rfl⟩

/-- C7 witness: cleanup at clock 2000 of a store holding one expired and
one live bundle keeps exactly the live bundle's identifier. -/
theorem cleanup_expired_semantics_witness :
    BundleStore.cleanupExpired 2000 exStoreMixed =
      .ok (exStoreMixed.filter fun e => !(expiredEntry 2000 e)) ∧
    BundleStore.list (exStoreMixed.filter fun e => !(expiredEntry 2000 e)) =
      [storeIdString exBundleA] :=
  ⟨cleanup_expired_semantics.1 2000 exStoreMixed (by decide), by decide⟩

/-! ## C6: dialer activation -/

theorem activateLoop_ok (sendOk : Nat → Bool) :
    ∀ (ids : List String) (st disp : StoreState) (n : Nat),
      ids.Nodup → (∀ i ∈ ids, i ∈ BundleStore.list st) →
      PrefixFree (BundleStore.list st) → (BundleStore.list st).Nodup →
      (∀ e ∈ st, wfEntry e = true) →
      (∀ i ∈ ids, i ∉ BundleStore.list disp) →
      activateLoop sendOk ids st disp n =
        .ok (st.filter fun e => decide (e.1 ∉ sentIdsFrom sendOk ids n),
          disp ++ entriesFor st (sentIdsFrom sendOk ids n)) := by
  intro ids
  induction ids with
  | nil =>
    intro st disp n _ _ _ _ _ _
    rw [activateLoop, sentIdsFrom, List.filter_eq_self.2 (by intro e _; simp), entriesFor,
      List.append_nil]
  | cons id ids ih =>
    intro st disp n hnd hsub hpf hknd hwf hdisj
    have hmem : id ∈ BundleStore.list st := hsub id (List.mem_cons_self _ _)
    obtain ⟨v, hv⟩ := assocLookup_of_mem_keys st id hmem
    have hev : (id, v) ∈ st := mem_of_assocLookup st id v hv
    have hwfv : wfEntry (id, v) = true := hwf _ hev
    have hload : BundleStore.loadByPartialId st id = BundleStore.load st id :=
      loadByPartialId_full st id hpf hmem
    have hnd2 := List.nodup_cons.1 hnd
    cases hd : decodeBundle v with
    | none => simp [wfEntry, hd] at hwfv
    | some b =>
    have hid : storeIdString b = id := by
      simpa [wfEntry, hd] using hwfv
    have hloadok : BundleStore.load st id = .ok b := by
      simp only [BundleStore.load, hv, hd]
    rw [activateLoop, hload, hloadok]
    dsimp only
    by_cases hs : sendOk n
    · rw [if_pos hs]
      have hdone : BundleStore.dispatchOne st disp b =
          .ok (removeFile st id, setKey disp id v) := by
        simp only [BundleStore.dispatchOne, hid, hv]
      rw [hdone]
      dsimp only
      have hset : setKey disp id v = disp ++ [(id, v)] :=
        setKey_append_of_not_mem disp id v (hdisj id (List.mem_cons_self _ _))
      rw [hset]
      have hsub2 : ∀ i ∈ ids, i ∈ BundleStore.list (removeFile st id) := by
        intro i hi
        refine (mem_keys_removeFile st id i).2 ⟨hsub i (List.mem_cons_of_mem _ hi), ?_⟩
        intro hc
        subst hc
        exact hnd2.1 hi
      have hpf2 : PrefixFree (BundleStore.list (removeFile st id)) := by
        intro a ha b2 hb2 hsw
        exact hpf a ((keys_removeFile_sublist st id).subset ha) b2
          ((keys_removeFile_sublist st id).subset hb2) hsw
      have hknd2 : (BundleStore.list (removeFile st id)).Nodup :=
        (keys_removeFile_sublist st id).nodup hknd
      have hwf2 : ∀ e ∈ removeFile st id, wfEntry e = true :=
        fun e he => hwf e (List.mem_of_mem_filter he)
      have hdisj2 : ∀ i ∈ ids, i ∉ BundleStore.list (disp ++ [(id, v)]) := by
        intro i hi
        rw [list_append]
        intro hc
        rcases List.mem_append.1 hc with hc1 | hc2
        · exact hdisj i (List.mem_cons_of_mem _ hi) hc1
        · have : i = id := by simpa [BundleStore.list] using hc2
          subst this
          exact hnd2.1 hi
      rw [ih (removeFile st id) (disp ++ [(id, v)]) (n + 1) hnd2.2 hsub2 hpf2 hknd2 hwf2
        hdisj2]
      rw [sentIdsFrom, if_pos hs]
      have hstore : (removeFile st id).filter
            (fun e => decide (e.1 ∉ sentIdsFrom sendOk ids (n + 1))) =
          st.filter (fun e => decide (e.1 ∉ id :: sentIdsFrom sendOk ids (n + 1))) := by
        rw [removeFile, List.filter_filter]
        refine List.filter_congr ?_
        intro e _
        by_cases h1 : e.1 = id <;>
          by_cases h2 : e.1 ∈ sentIdsFrom sendOk ids (n + 1) <;>
            simp [h1, h2]
      have hdispatched : entriesFor (removeFile st id) (sentIdsFrom sendOk ids (n + 1)) =
          entriesFor st (sentIdsFrom sendOk ids (n + 1)) := by
        refine entriesFor_congr _ _ _ ?_
        intro k hk
        refine assocLookup_removeFile_ne st id k ?_
        intro hc
        subst hc
        exact hnd2.1 (sentIdsFrom_subset sendOk ids (n + 1) k hk)
      rw [hstore, hdispatched, entriesFor, hv, List.append_assoc, List.singleton_append]
    · rw [if_neg hs]
      rw [ih st disp (n + 1) hnd2.2 (fun i hi => hsub i (List.mem_cons_of_mem _ hi)) hpf hknd
        hwf (fun i hi => hdisj i (List.mem_cons_of_mem _ hi))]
      rw [sentIdsFrom, if_neg hs]

/-- C6: per activation with an empty dispatched directory, the dialer
walks every listed bundle in order; exactly the bundles whose
send-and-acknowledgment step succeeded are moved — `dispatch_one` removes
their files from the active store and they appear in the dispatched
directory — while a send/ack failure leaves the bundle's file in the
store and the loop continues with the next bundle. -/
theorem dialer_dispatches_exactly_acknowledged :
    ∀ (sendOk : Nat → Bool) (st : StoreState), WfStore st →
      TcpClaDialer.activate sendOk st [] =
        .ok (st.filter fun e => decide (e.1 ∉ sentIdsFrom sendOk (BundleStore.list st) 0),
          entriesFor st (sentIdsFrom sendOk (BundleStore.list st) 0)) := by
  intro sendOk st hwfs
  obtain ⟨hknd, hpf, hwf⟩ := hwfs
  rw [TcpClaDialer.activate,
    activateLoop_ok sendOk (BundleStore.list st) st [] 0 hknd (fun i hi => hi) hpf hknd hwf
      (by intro i _; simp [BundleStore.list])]
  rw [List.nil_append]

/-- C6 witness: a two-bundle store where the first send succeeds and the
second fails keeps exactly the second bundle and dispatches exactly the
first. -/
theorem dialer_dispatches_exactly_acknowledged_witness :
    TcpClaDialer.activate (fun n => decide (n = 0)) exStoreTwo [] =
      .ok (exStoreTwo.filter
          (fun e => decide
            (e.1 ∉ sentIdsFrom (fun n => decide (n = 0)) (BundleStore.list exStoreTwo) 0)),
        entriesFor exStoreTwo
          (sentIdsFrom (fun n => decide (n = 0)) (BundleStore.list exStoreTwo) 0)) ∧
    BundleStore.list
        (exStoreTwo.filter
          (fun e => decide
            (e.1 ∉ sentIdsFrom (fun n => decide (n = 0)) (BundleStore.list exStoreTwo) 0))) =
      [storeIdString exBundleB] ∧
    BundleStore.list
        (entriesFor exStoreTwo
          (sentIdsFrom (fun n => decide (n = 0)) (BundleStore.list exStoreTwo) 0)) =
      [storeIdString exBundleA] :=
  ⟨dialer_dispatches_exactly_acknowledged (fun n => decide (n = 0)) exStoreTwo (by decide),
    by decide, by decide⟩

end SpacearthDtn
